import Mathlib

/-!
Verification development for the URL-signing core of a video-download
library (sources: src/utils.rs, src/parser/cipher.rs, src/parser/ncode.rs,
src/parser/mod.rs).  Strings are modelled as `List Char`; the Rust code
scans byte-wise, but every byte the scanner treats specially is ASCII and
multi-byte UTF-8 units are neither brackets, quotes, alphanumerics nor
whitespace, so the character-level model is faithful.  A Rust `panic!`
(out-of-bounds index or `unwrap` on an error) is modelled by a dedicated
`aborted` result or by `Except.error`.
-/

/-- The character `\x7b` (left curly brace). -/
def lcurly : Char := Char.ofNat 123

/-- The character `\x7d` (right curly brace). -/
def rcurly : Char := Char.ofNat 125

/-- The backtick character. -/
def btick : Char := Char.ofNat 96

/-- The double-quote character. -/
def dquote : Char := Char.ofNat 34

/-- The single-quote character. -/
def squote : Char := Char.ofNat 39

/-- Opening brackets counted by `cut_after_js` (src/utils.rs line 1218). -/
def isOpener (c : Char) : Bool := c = lcurly || c = '[' || c = '('

/-- Closing brackets counted by `cut_after_js` (src/utils.rs line 1219). -/
def isCloser (c : Char) : Bool := c = rcurly || c = ']' || c = ')'

/-- Quote characters opening a string literal (src/utils.rs line 1221). -/
def isQuote (c : Char) : Bool := c = dquote || c = squote || c = btick

/-- ASCII whitespace as tested by Rust `u8::is_ascii_whitespace`
(space, tab, newline, carriage return, form feed). -/
def isAsciiWs (c : Char) : Bool :=
  c = ' ' || c = Char.ofNat 9 || c = Char.ofNat 10 || c = Char.ofNat 13 ||
  c = Char.ofNat 12

/-- Skips a quoted string or regex literal exactly as the inner loops of
`cut_after_js` do (src/utils.rs lines 1222-1228 and 1245-1251): advance
until the closing character `q`, skipping one extra character after a
backslash.  Returns the consumed part (including the closing `q`) and the
remainder; `none` models the out-of-bounds panic on an unterminated
literal. -/
def skipLit (q : Char) : List Char → Option (List Char × List Char)
  | [] => none
  | c :: rest =>
    if c = q then some ([c], rest)
    else if c = '\\' then
      match rest with
      | [] => none
      | d :: rest2 =>
        match skipLit q rest2 with
        | none => none
        | some (consumed, rem) => some (c :: d :: consumed, rem)
    else
      match skipLit q rest with
      | none => none
      | some (consumed, rem) => some (c :: consumed, rem)

/-- Skips a block comment body exactly as `cut_after_js` does
(src/utils.rs lines 1231-1237): advance until the two characters `*/`.
Returns the consumed part (including `*/`) and the remainder; `none`
models the out-of-bounds panic on an unterminated comment. -/
def skipComment : List Char → Option (List Char × List Char)
  | [] => none
  | '*' :: '/' :: rest => some (['*', '/'], rest)
  | c :: rest =>
    match skipComment rest with
    | none => none
    | some (consumed, rem) => some (c :: consumed, rem)

/-- Result of one run of the `cut_after_js` state machine: `aborted`
models a Rust panic (out-of-bounds indexing), `noMatch` models `None`,
`found n` models `Some` of the first `n` characters. -/
inductive CutResult where
  | aborted : CutResult
  | noMatch : CutResult
  | found : Nat → CutResult
deriving DecidableEq, Repr

/-- One iteration of the scanning loop of `cut_after_js` (src/utils.rs
lines 1215-1257), abstracted over the recursive call so that `cutLoop`'s
unfolding equation `cutLoop_succ` can be stated; `cutLoop` below inlines
this body verbatim. -/
def cutStep (fuel : Nat)
    (recur : Nat → List Char → Int → Option Char → Nat → CutResult)
    (rest : List Char) (nest : Int) (ls : Option Char) (idx : Nat) : CutResult :=
  match rest with
  | [] => .noMatch
  | c :: rs =>
    if isOpener c then recur fuel rs (nest + 1) ls (idx + 1)
    else if isCloser c then recur fuel rs (nest - 1) ls (idx + 1)
    else if isQuote c then
      match skipLit c rs with
      | none => .aborted
      | some (consumed, rem) =>
        recur fuel rem nest ls (idx + 1 + consumed.length)
    else if c = '/' then
      match rs with
      | [] => .aborted
      | d :: rs2 =>
        if d = '*' then
          match skipComment rs2 with
          | none => .aborted
          | some (consumed, rem) =>
            recur fuel rem nest ls (idx + 2 + consumed.length)
        else if (ls.map fun x => !x.isAlphanum).getD false then
          match skipLit '/' rs with
          | none => .aborted
          | some (consumed, rem) =>
            recur fuel rem nest ls (idx + 1 + consumed.length)
        else recur fuel rs nest (some '/') (idx + 1)
    else if !isAsciiWs c then recur fuel rs nest (some c) (idx + 1)
    else recur fuel rs nest ls (idx + 1)

/-- Loop-exit value of `cut_after_js` (src/utils.rs lines 1259-1262): once
the `while nest > 0 || index == 0` condition fails, the function returns
`None` when exactly one character was consumed and the prefix otherwise. -/
def cutExit (idx : Nat) : CutResult :=
  if idx = 1 then .noMatch else .found idx

/-- The scanning loop of `cut_after_js` (src/utils.rs lines 1202-1262),
fuelled for structural recursion: `rest` is the unread input, `nest` the
bracket depth, `ls` the `last_significant` register, `idx` the absolute
index.  One fuel unit is spent per outer-loop iteration; every iteration
consumes at least one character, so fuel exceeding the input length never
runs out (`cutLoop_fuel_irrelevant`). -/
def cutLoop : Nat → List Char → Int → Option Char → Nat → CutResult
  | 0, _, nest, _, idx =>
    if nest > 0 ∨ idx = 0 then .aborted else cutExit idx
  | fuel + 1, rest, nest, ls, idx =>
    if nest > 0 ∨ idx = 0 then
      match rest with
      | [] => .noMatch
      | c :: rs =>
        if isOpener c then cutLoop fuel rs (nest + 1) ls (idx + 1)
        else if isCloser c then cutLoop fuel rs (nest - 1) ls (idx + 1)
        else if isQuote c then
          match skipLit c rs with
          | none => .aborted
          | some (consumed, rem) =>
            cutLoop fuel rem nest ls (idx + 1 + consumed.length)
        else if c = '/' then
          match rs with
          | [] => .aborted
          | d :: rs2 =>
            if d = '*' then
              match skipComment rs2 with
              | none => .aborted
              | some (consumed, rem) =>
                cutLoop fuel rem nest ls (idx + 2 + consumed.length)
            else if (ls.map fun x => !x.isAlphanum).getD false then
              match skipLit '/' rs with
              | none => .aborted
              | some (consumed, rem) =>
                cutLoop fuel rem nest ls (idx + 1 + consumed.length)
            else cutLoop fuel rs nest (some '/') (idx + 1)
        else if !isAsciiWs c then cutLoop fuel rs nest (some c) (idx + 1)
        else cutLoop fuel rs nest ls (idx + 1)
    else cutExit idx

/-- Answer of `cut_after_js` at the string level. -/
inductive CutAnswer where
  | aborted : CutAnswer
  | noMatch : CutAnswer
  | cut : List Char → CutAnswer
deriving DecidableEq, Repr

/-- Model of `cut_after_js` (src/utils.rs lines 1202-1263): runs the scanning loop
from depth 0, index 0, empty `last_significant`, and on success returns
the consumed prefix. -/
def cutAfterJs (s : List Char) : CutAnswer :=
  match cutLoop (s.length + 1) s 0 none 0 with
  | .aborted => .aborted
  | .noMatch => .noMatch
  | .found n => .cut (s.take n)

example : cutAfterJs "\x7b\x22a\x22: 1, \x22b\x22: 1\x7d".data =
    .cut "\x7b\x22a\x22: 1, \x22b\x22: 1\x7d".data := by decide

example : cutAfterJs "\x7b\x22a\x22: 1, \x22b\x22: 1\x7dabcd".data =
    .cut "\x7b\x22a\x22: 1, \x22b\x22: 1\x7d".data := by decide

example : cutAfterJs "\x7b\x22a\x22: \x22\x7d1\x22, \x22b\x22: 1\x7dabcd".data =
    .cut "\x7b\x22a\x22: \x22\x7d1\x22, \x22b\x22: 1\x7d".data := by decide

example : cutAfterJs "abcd]\x7d".data = .noMatch := by decide

example : cutAfterJs "\x7b\x22a\x22: 1,\x7b \x22b\x22: 1\x7d".data = .noMatch := by
  decide

theorem skipLit_nil (q : Char) : skipLit q [] = none := by rw [skipLit]

theorem skipLit_cons (q c : Char) (rest : List Char) :
    skipLit q (c :: rest) =
      if c = q then some ([c], rest)
      else if c = '\\' then
        match rest with
        | [] => none
        | d :: rest2 =>
          match skipLit q rest2 with
          | none => none
          | some (consumed, rem) => some (c :: d :: consumed, rem)
      else
        match skipLit q rest with
        | none => none
        | some (consumed, rem) => some (c :: consumed, rem) := by
  rw [skipLit.eq_def]

theorem skipLit_split (q : Char) (l cs r : List Char)
    (h : skipLit q l = some (cs, r)) : l = cs ++ r := by
  induction l using skipLit.induct q generalizing cs r with
  | case1 => simp [skipLit_nil] at h
  | case2 rest2 =>
    simp [skipLit_cons] at h
    obtain ⟨h1, h2⟩ := h
    subst h1; subst h2; rfl
  | case3 hq => simp [skipLit_cons, hq] at h
  | case4 d rest2 hn hq ih => simp [skipLit_cons, hq, hn] at h
  | case5 d rest2 consumed rem hs hq ih =>
    simp [skipLit_cons, hq, hs] at h
    obtain ⟨h1, h2⟩ := h
    subst h1; subst h2
    simpa using ih consumed rem hs
  | case6 d rest2 hdq hdb hn ih => simp [skipLit_cons, hdq, hdb, hn] at h
  | case7 d rest2 hdq hdb consumed rem hs ih =>
    simp [skipLit_cons, hdq, hdb, hs] at h
    obtain ⟨h1, h2⟩ := h
    subst h1; subst h2
    simpa using ih consumed rem hs

theorem skipLit_ne_nil (q : Char) (l cs r : List Char)
    (h : skipLit q l = some (cs, r)) : cs ≠ [] := by
  induction l using skipLit.induct q generalizing cs r with
  | case1 => simp [skipLit_nil] at h
  | case2 rest2 => simp [skipLit_cons] at h; simp [← h.1]
  | case3 hq => simp [skipLit_cons, hq] at h
  | case4 d rest2 hn hq ih => simp [skipLit_cons, hq, hn] at h
  | case5 d rest2 consumed rem hs hq ih =>
    simp [skipLit_cons, hq, hs] at h
    simp [← h.1]
  | case6 d rest2 hdq hdb hn ih => simp [skipLit_cons, hdq, hdb, hn] at h
  | case7 d rest2 hdq hdb consumed rem hs ih =>
    simp [skipLit_cons, hdq, hdb, hs] at h
    simp [← h.1]

theorem skipLit_stable (q : Char) (l cs r : List Char)
    (h : skipLit q l = some (cs, r)) :
    ∀ t, skipLit q (cs ++ t) = some (cs, t) := by
  induction l using skipLit.induct q generalizing cs r with
  | case1 => simp [skipLit_nil] at h
  | case2 rest2 =>
    simp [skipLit_cons] at h
    intro t
    simp [← h.1, skipLit_cons]
  | case3 hq => simp [skipLit_cons, hq] at h
  | case4 d rest2 hn hq ih => simp [skipLit_cons, hq, hn] at h
  | case5 d rest2 consumed rem hs hq ih =>
    simp [skipLit_cons, hq, hs] at h
    intro t
    have hst := ih consumed rem hs t
    simp [← h.1, skipLit_cons, hq, hst]
  | case6 d rest2 hdq hdb hn ih => simp [skipLit_cons, hdq, hdb, hn] at h
  | case7 d rest2 hdq hdb consumed rem hs ih =>
    simp [skipLit_cons, hdq, hdb, hs] at h
    intro t
    have hst := ih consumed rem hs t
    simp [← h.1, skipLit_cons, hdq, hdb, hst]


theorem skipComment_split (l cs r : List Char)
    (h : skipComment l = some (cs, r)) : l = cs ++ r := by
  induction l using skipComment.induct generalizing cs r with
  | case1 => rw [skipComment.eq_def] at h; simp at h
  | case2 rest =>
    rw [skipComment.eq_def] at h
    simp at h
    obtain ⟨h1, h2⟩ := h
    subst h1; subst h2; rfl
  | case3 c rest hmm hn ih =>
    rw [skipComment.eq_def] at h
    split at h
    · simp at h
    · rename_i rest1 heq
      injection heq with hc hr
      exact (hmm rest1 hc hr).elim
    · rename_i c2 rest2 hx heq
      injection heq with hc hr
      subst hc; subst hr
      rw [hn] at h
      simp at h
  | case4 c rest hmm consumed rem hs ih =>
    rw [skipComment.eq_def] at h
    split at h
    · simp at h
    · rename_i rest1 heq
      injection heq with hc hr
      exact (hmm rest1 hc hr).elim
    · rename_i c2 rest2 hx heq
      injection heq with hc hr
      subst hc; subst hr
      rw [hs] at h
      simp at h
      obtain ⟨h1, h2⟩ := h
      subst h1; subst h2
      simpa using ih consumed rem hs

theorem skipComment_ne_nil (l cs r : List Char)
    (h : skipComment l = some (cs, r)) : cs ≠ [] := by
  induction l using skipComment.induct generalizing cs r with
  | case1 => rw [skipComment.eq_def] at h; simp at h
  | case2 rest =>
    rw [skipComment.eq_def] at h
    simp at h
    simp [← h.1]
  | case3 c rest hmm hn ih =>
    rw [skipComment.eq_def] at h
    split at h
    · simp at h
    · rename_i rest1 heq
      injection heq with hc hr
      exact (hmm rest1 hc hr).elim
    · rename_i c2 rest2 hx heq
      injection heq with hc hr
      subst hc; subst hr
      rw [hn] at h
      simp at h
  | case4 c rest hmm consumed rem hs ih =>
    rw [skipComment.eq_def] at h
    split at h
    · simp at h
    · rename_i rest1 heq
      injection heq with hc hr
      exact (hmm rest1 hc hr).elim
    · rename_i c2 rest2 hx heq
      injection heq with hc hr
      subst hc; subst hr
      rw [hs] at h
      simp at h
      simp [← h.1]

theorem skipComment_stable (l cs r : List Char)
    (h : skipComment l = some (cs, r)) :
    ∀ t, skipComment (cs ++ t) = some (cs, t) := by
  induction l using skipComment.induct generalizing cs r with
  | case1 => rw [skipComment.eq_def] at h; simp at h
  | case2 rest =>
    rw [skipComment.eq_def] at h
    simp at h
    intro t
    rw [← h.1, skipComment.eq_def]
    simp
  | case3 c rest hmm hn ih =>
    rw [skipComment.eq_def] at h
    split at h
    · simp at h
    · rename_i rest1 heq
      injection heq with hc hr
      exact (hmm rest1 hc hr).elim
    · rename_i c2 rest2 hx heq
      injection heq with hc hr
      subst hc; subst hr
      rw [hn] at h
      simp at h
  | case4 c rest hmm consumed rem hs ih =>
    rw [skipComment.eq_def] at h
    split at h
    · simp at h
    · rename_i rest1 heq
      injection heq with hc hr
      exact (hmm rest1 hc hr).elim
    · rename_i c2 rest2 hx heq
      injection heq with hc hr
      subst hc; subst hr
      rw [hs] at h
      simp at h
      obtain ⟨h1, h2⟩ := h
      subst h1
      intro t
      have hst := ih consumed rem hs t
      have hcons : consumed ≠ [] := skipComment_ne_nil rest consumed rem hs
      have hsp : rest = consumed ++ rem := skipComment_split rest consumed rem hs
      rw [skipComment.eq_def]
      split
      · rename_i heq2
        simp at heq2
      · rename_i rest3 heq2
        injection heq2 with hc2 hr2
        rcases consumed with _ | ⟨x, cs2⟩
        · exact absurd rfl hcons
        · subst hc2
          have hx2 : x = '/' := by
            simpa using congrArg (fun l => l.headD ' ') hr2
          exact (hmm (cs2 ++ rem) rfl (by simp [hsp, hx2])).elim
      · rename_i c3 rest3 hx3 heq2
        injection heq2 with hc3 hr3
        subst hc3
        have hr4 : consumed ++ t = rest3 := hr3
        rw [← hr4, hst]

theorem cutLoop_zero (rest : List Char) (nest : Int) (ls : Option Char) (idx : Nat) :
    cutLoop 0 rest nest ls idx =
      if nest > 0 ∨ idx = 0 then .aborted else cutExit idx := rfl

theorem cutLoop_succ (fuel : Nat) (rest : List Char) (nest : Int) (ls : Option Char)
    (idx : Nat) :
    cutLoop (fuel + 1) rest nest ls idx =
      if nest > 0 ∨ idx = 0 then cutStep fuel cutLoop rest nest ls idx
      else cutExit idx := rfl

theorem cutLoop_fuel_irrelevant (f1 f2 : Nat) (rest : List Char) (nest : Int)
    (ls : Option Char) (idx : Nat) (h1 : rest.length < f1) (h2 : rest.length < f2) :
    cutLoop f1 rest nest ls idx = cutLoop f2 rest nest ls idx := by
  induction f1, rest, nest, ls, idx using cutLoop.induct generalizing f2 with
  | case1 rest nest ls idx hc => omega
  | case2 rest nest ls idx hc => omega
  | case3 fuel nest ls idx hc =>
    obtain ⟨f2', rfl⟩ : ∃ f2', f2 = f2' + 1 := ⟨f2 - 1, by omega⟩
    simp [cutLoop_succ, cutStep, hc]
  | case4 fuel nest ls idx hc d rest2 hop ih =>
    obtain ⟨f2', rfl⟩ : ∃ f2', f2 = f2' + 1 := ⟨f2 - 1, by omega⟩
    simp only [cutLoop_succ, cutStep, hc, hop, if_true, ite_true]
    exact ih f2' (by simp at h1 ⊢; omega) (by simp at h2 ⊢; omega)
  | case5 fuel nest ls idx hc d rest2 hop hcl ih =>
    obtain ⟨f2', rfl⟩ : ∃ f2', f2 = f2' + 1 := ⟨f2 - 1, by omega⟩
    simp only [cutLoop_succ, cutStep, hc, hop, hcl, if_true, ite_true, if_false,
      ite_false, Bool.false_eq_true]
    exact ih f2' (by simp at h1 ⊢; omega) (by simp at h2 ⊢; omega)
  | case6 fuel nest ls idx hc d rest2 hop hcl hq hn =>
    obtain ⟨f2', rfl⟩ : ∃ f2', f2 = f2' + 1 := ⟨f2 - 1, by omega⟩
    simp only [cutLoop_succ, cutStep, hc, hop, hcl, hq, hn, if_true, ite_true,
      if_false, ite_false, Bool.false_eq_true]
  | case7 fuel nest ls idx hc d rest2 hop hcl hq consumed rem hs ih =>
    obtain ⟨f2', rfl⟩ : ∃ f2', f2 = f2' + 1 := ⟨f2 - 1, by omega⟩
    have hsp := skipLit_split d rest2 consumed rem hs
    have hne := skipLit_ne_nil d rest2 consumed rem hs
    have hlen : rest2.length = consumed.length + rem.length := by rw [hsp]; simp
    have hcl1 : 1 ≤ consumed.length := by
      rcases consumed with _ | _
      · exact absurd rfl hne
      · simp
    simp only [cutLoop_succ, cutStep, hc, hop, hcl, hq, hs, if_true, ite_true,
      if_false, ite_false, Bool.false_eq_true]
    exact ih f2' (by simp at h1 ⊢; omega) (by simp at h2 ⊢; omega)
  | case8 fuel nest ls idx hc hop hcl hq =>
    obtain ⟨f2', rfl⟩ : ∃ f2', f2 = f2' + 1 := ⟨f2 - 1, by omega⟩
    simp only [cutLoop_succ, cutStep, hc, hop, hcl, hq, if_true, ite_true,
      if_false, ite_false, Bool.false_eq_true]
  | case9 fuel nest ls idx hc rest2 hn hop hcl hq =>
    obtain ⟨f2', rfl⟩ : ∃ f2', f2 = f2' + 1 := ⟨f2 - 1, by omega⟩
    simp only [cutLoop_succ, cutStep, hc, hop, hcl, hq, hn, if_true, ite_true,
      if_false, ite_false, Bool.false_eq_true]
  | case10 fuel nest ls idx hc rest2 consumed rem hs hop hcl hq ih =>
    obtain ⟨f2', rfl⟩ : ∃ f2', f2 = f2' + 1 := ⟨f2 - 1, by omega⟩
    have hsp := skipComment_split rest2 consumed rem hs
    have hlen : rem.length ≤ rest2.length := by rw [hsp]; simp
    simp only [cutLoop_succ, cutStep, hc, hop, hcl, hq, hs, if_true, ite_true,
      if_false, ite_false, Bool.false_eq_true]
    exact ih f2' (by simp at h1 ⊢; omega) (by simp at h2 ⊢; omega)
  | case11 fuel nest ls idx hc d rest2 hd hre hop hcl hq hn =>
    obtain ⟨f2', rfl⟩ : ∃ f2', f2 = f2' + 1 := ⟨f2 - 1, by omega⟩
    simp only [cutLoop_succ, cutStep, hc, hop, hcl, hq, hd, hre, hn, if_true,
      ite_true, if_false, ite_false, Bool.false_eq_true]
  | case12 fuel nest ls idx hc d rest2 hd hre consumed rem hop hcl hq hs ih =>
    obtain ⟨f2', rfl⟩ : ∃ f2', f2 = f2' + 1 := ⟨f2 - 1, by omega⟩
    have hsp := skipLit_split '/' (d :: rest2) consumed rem hs
    have hne := skipLit_ne_nil '/' (d :: rest2) consumed rem hs
    have hlen : rest2.length + 1 = consumed.length + rem.length := by
      have := congrArg List.length hsp
      simpa using this
    have hcl1 : 1 ≤ consumed.length := by
      rcases consumed with _ | _
      · exact absurd rfl hne
      · simp
    simp only [cutLoop_succ, cutStep, hc, hop, hcl, hq, hd, hre, hs, if_true,
      ite_true, if_false, ite_false, Bool.false_eq_true]
    exact ih f2' (by simp at h1 ⊢; omega) (by simp at h2 ⊢; omega)
  | case13 fuel nest ls idx hc d rest2 hd hre hop hcl hq ih =>
    obtain ⟨f2', rfl⟩ : ∃ f2', f2 = f2' + 1 := ⟨f2 - 1, by omega⟩
    simp only [cutLoop_succ, cutStep, hc, hop, hcl, hq, hd, hre, if_true,
      ite_true, if_false, ite_false, Bool.false_eq_true]
    exact ih f2' (by simp at h1 ⊢; omega) (by simp at h2 ⊢; omega)
  | case14 fuel nest ls idx hc d rest2 hop hcl hq hsl hw ih =>
    obtain ⟨f2', rfl⟩ : ∃ f2', f2 = f2' + 1 := ⟨f2 - 1, by omega⟩
    simp only [cutLoop_succ, cutStep, hc, hop, hcl, hq, hsl, hw, if_true,
      ite_true, if_false, ite_false, Bool.false_eq_true]
    exact ih f2' (by simp at h1 ⊢; omega) (by simp at h2 ⊢; omega)
  | case15 fuel nest ls idx hc d rest2 hop hcl hq hsl hw ih =>
    obtain ⟨f2', rfl⟩ : ∃ f2', f2 = f2' + 1 := ⟨f2 - 1, by omega⟩
    simp only [cutLoop_succ, cutStep, hc, hop, hcl, hq, hsl, hw, if_true,
      ite_true, if_false, ite_false, Bool.false_eq_true]
    exact ih f2' (by simp at h1 ⊢; omega) (by simp at h2 ⊢; omega)
  | case16 fuel rest nest ls idx hc =>
    obtain ⟨f2', rfl⟩ : ∃ f2', f2 = f2' + 1 := ⟨f2 - 1, by omega⟩
    simp [cutLoop_succ, hc]

theorem cutLoop_consume (fuel : Nat) (rest : List Char) (nest : Int)
    (ls : Option Char) (idx n : Nat)
    (h : cutLoop fuel rest nest ls idx = .found n) :
    ∃ cs r, rest = cs ++ r ∧ n = idx + cs.length ∧
      ∀ t (f2 : Nat), cs.length < f2 → cutLoop f2 (cs ++ t) nest ls idx = .found n := by
  induction fuel, rest, nest, ls, idx using cutLoop.induct generalizing n with
  | case1 rest nest ls idx hc => simp [cutLoop_zero, hc] at h
  | case2 rest nest ls idx hc =>
    rw [cutLoop_zero] at h
    simp only [hc, if_false, ite_false] at h
    rw [cutExit] at h
    by_cases h1 : idx = 1
    · simp [h1] at h
    · simp only [h1, if_false, ite_false] at h
      injection h with hn
      refine ⟨[], rest, rfl, by simpa using hn.symm, ?_⟩
      intro t f2 hf2
      rcases f2 with _ | f2'
      · omega
      · rw [cutLoop_succ]
        simp only [hc, if_false, ite_false]
        rw [cutExit]
        simp [← hn, h1]
  | case3 fuel nest ls idx hc => simp [cutLoop_succ, cutStep, hc] at h
  | case4 fuel nest ls idx hc d rest2 hop ih =>
    simp only [cutLoop_succ, cutStep, hc, hop, if_true, ite_true] at h
    obtain ⟨cs, r, heq, hn, hst⟩ := ih _ h
    refine ⟨d :: cs, r, by simp [heq], by simp [hn]; omega, ?_⟩
    intro t f2 hf2
    rcases f2 with _ | f2'
    · omega
    · simp only [cutLoop_succ, cutStep, hc, hop, if_true, ite_true,
        List.cons_append]
      exact hst t f2' (by simp at hf2; omega)
  | case5 fuel nest ls idx hc d rest2 hop hcl ih =>
    simp only [cutLoop_succ, cutStep, hc, hop, hcl, if_true, ite_true, if_false,
      ite_false, Bool.false_eq_true] at h
    obtain ⟨cs, r, heq, hn, hst⟩ := ih _ h
    refine ⟨d :: cs, r, by simp [heq], by simp [hn]; omega, ?_⟩
    intro t f2 hf2
    rcases f2 with _ | f2'
    · omega
    · simp only [cutLoop_succ, cutStep, hc, hop, hcl, if_true, ite_true,
        if_false, ite_false, Bool.false_eq_true, List.cons_append]
      exact hst t f2' (by simp at hf2; omega)
  | case6 fuel nest ls idx hc d rest2 hop hcl hq hn =>
    simp only [cutLoop_succ, cutStep, hc, hop, hcl, hq, hn, if_true, ite_true,
      if_false, ite_false, Bool.false_eq_true] at h
    exact CutResult.noConfusion h
  | case7 fuel nest ls idx hc d rest2 hop hcl hq consumed rem hs ih =>
    simp only [cutLoop_succ, cutStep, hc, hop, hcl, hq, hs, if_true, ite_true,
      if_false, ite_false, Bool.false_eq_true] at h
    obtain ⟨cs, r, heq, hn, hst⟩ := ih _ h
    have hsp := skipLit_split d rest2 consumed rem hs
    have hne := skipLit_ne_nil d rest2 consumed rem hs
    refine ⟨d :: consumed ++ cs, r, by simp [hsp, heq], by simp [hn]; omega, ?_⟩
    intro t f2 hf2
    rcases f2 with _ | f2'
    · omega
    · have hstab := skipLit_stable d rest2 consumed rem hs (cs ++ t)
      simp only [cutLoop_succ, cutStep, hc, hop, hcl, hq, if_true, ite_true,
        if_false, ite_false, Bool.false_eq_true, List.cons_append,
        List.append_assoc, hstab]
      exact hst t f2' (by simp at hf2 ⊢; omega)
  | case8 fuel nest ls idx hc hop hcl hq =>
    simp [cutLoop_succ, cutStep, hc, hop, hcl, hq] at h
  | case9 fuel nest ls idx hc rest2 hcn hop hcl hq =>
    simp [cutLoop_succ, cutStep, hc, hop, hcl, hq, hcn] at h
  | case10 fuel nest ls idx hc rest2 consumed rem hs hop hcl hq ih =>
    simp only [cutLoop_succ, cutStep, hc, hop, hcl, hq, hs, if_true, ite_true,
      if_false, ite_false, Bool.false_eq_true] at h
    obtain ⟨cs, r, heq, hn, hst⟩ := ih _ h
    have hsp := skipComment_split rest2 consumed rem hs
    refine ⟨'/' :: '*' :: consumed ++ cs, r, by simp [hsp, heq],
      by simp [hn]; omega, ?_⟩
    intro t f2 hf2
    rcases f2 with _ | f2'
    · omega
    · have hstab := skipComment_stable rest2 consumed rem hs (cs ++ t)
      simp only [cutLoop_succ, cutStep, hc, hop, hcl, hq, if_true, ite_true,
        if_false, ite_false, Bool.false_eq_true, List.cons_append,
        List.append_assoc, hstab]
      exact hst t f2' (by simp at hf2 ⊢; omega)
  | case11 fuel nest ls idx hc d rest2 hd hre hop hcl hq hcn =>
    simp [cutLoop_succ, cutStep, hc, hop, hcl, hq, hd, hre, hcn] at h
  | case12 fuel nest ls idx hc d rest2 hd hre consumed rem hop hcl hq hs ih =>
    simp only [cutLoop_succ, cutStep, hc, hop, hcl, hq, hd, hre, hs, if_true,
      ite_true, if_false, ite_false, Bool.false_eq_true] at h
    obtain ⟨cs, r, heq, hn, hst⟩ := ih _ h
    have hsp := skipLit_split '/' (d :: rest2) consumed rem hs
    have hne := skipLit_ne_nil '/' (d :: rest2) consumed rem hs
    obtain ⟨e, consumed2, rfl⟩ : ∃ e consumed2, consumed = e :: consumed2 := by
      rcases consumed with _ | ⟨e, c2⟩
      · exact absurd rfl hne
      · exact ⟨e, c2, rfl⟩
    have hed : e = d := by
      have := congrArg (fun l => l.headD ' ') hsp
      simpa using this.symm
    subst hed
    refine ⟨'/' :: e :: consumed2 ++ cs, r, ?_, by simp [hn]; omega, ?_⟩
    · have : rest2 = consumed2 ++ rem := by
        injection hsp
      simp [this, heq]
    · intro t f2 hf2
      rcases f2 with _ | f2'
      · omega
      · have hstab := skipLit_stable '/' (e :: rest2) (e :: consumed2) rem hs (cs ++ t)
        simp only [List.cons_append] at hstab
        simp only [cutLoop_succ, cutStep, hc, hop, hcl, hq, hd, hre, if_true,
          ite_true, if_false, ite_false, Bool.false_eq_true, List.cons_append,
          List.append_assoc]
        rw [hstab]
        exact hst t f2' (by simp at hf2 ⊢; omega)
  | case13 fuel nest ls idx hc d rest2 hd hre hop hcl hq ih =>
    simp only [cutLoop_succ, cutStep, hc, hop, hcl, hq, hd, hre, if_true,
      ite_true, if_false, ite_false, Bool.false_eq_true] at h
    obtain ⟨cs, r, heq, hn, hst⟩ := ih _ h
    have hcs : cs ≠ [] := by
      rintro rfl
      have := hst [] 1 (by simp)
      rw [cutLoop_succ] at this
      rcases hc with hc1 | hc1
      · simp only [List.nil_append, hc1, true_or, if_true, ite_true,
          cutStep] at this
        exact CutResult.noConfusion this
      · subst hc1
        simp only [List.nil_append] at this
        rcases Decidable.em ((nest : Int) > 0) with h2 | h2
        · simp only [h2, true_or, if_true, ite_true, cutStep] at this
          exact CutResult.noConfusion this
        · simp only [h2, false_or] at this
          rw [if_neg (by omega)] at this
          rw [cutExit] at this
          simp at this
    obtain ⟨e, cs2, rfl⟩ : ∃ e cs2, cs = e :: cs2 := by
      rcases cs with _ | ⟨e, c2⟩
      · exact absurd rfl hcs
      · exact ⟨e, c2, rfl⟩
    have hed : e = d := by
      have := congrArg (fun l => l.headD ' ') heq
      simpa using this.symm
    subst hed
    refine ⟨'/' :: e :: cs2, r, by simpa using heq, by simp [hn]; omega, ?_⟩
    intro t f2 hf2
    rcases f2 with _ | f2'
    · omega
    · simp only [cutLoop_succ, cutStep, hc, hop, hcl, hq, hd, hre, if_true,
        ite_true, if_false, ite_false, Bool.false_eq_true, List.cons_append]
      exact hst t f2' (by simp at hf2 ⊢; omega)
  | case14 fuel nest ls idx hc d rest2 hop hcl hq hsl hw ih =>
    simp only [cutLoop_succ, cutStep, hc, hop, hcl, hq, hsl, hw, if_true,
      ite_true, if_false, ite_false, Bool.false_eq_true] at h
    obtain ⟨cs, r, heq, hn, hst⟩ := ih _ h
    refine ⟨d :: cs, r, by simp [heq], by simp [hn]; omega, ?_⟩
    intro t f2 hf2
    rcases f2 with _ | f2'
    · omega
    · simp only [cutLoop_succ, cutStep, hc, hop, hcl, hq, hsl, hw, if_true,
        ite_true, if_false, ite_false, Bool.false_eq_true, List.cons_append]
      exact hst t f2' (by simp at hf2; omega)
  | case15 fuel nest ls idx hc d rest2 hop hcl hq hsl hw ih =>
    simp only [cutLoop_succ, cutStep, hc, hop, hcl, hq, hsl, hw, if_true,
      ite_true, if_false, ite_false, Bool.false_eq_true] at h
    obtain ⟨cs, r, heq, hn, hst⟩ := ih _ h
    refine ⟨d :: cs, r, by simp [heq], by simp [hn]; omega, ?_⟩
    intro t f2 hf2
    rcases f2 with _ | f2'
    · omega
    · simp only [cutLoop_succ, cutStep, hc, hop, hcl, hq, hsl, hw, if_true,
        ite_true, if_false, ite_false, Bool.false_eq_true, List.cons_append]
      exact hst t f2' (by simp at hf2; omega)
  | case16 fuel rest nest ls idx hc =>
    rw [cutLoop_succ] at h
    simp only [hc, if_false, ite_false] at h
    rw [cutExit] at h
    by_cases h1 : idx = 1
    · simp [h1] at h
    · simp only [h1, if_false, ite_false] at h
      injection h with hn
      refine ⟨[], rest, rfl, by simpa using hn.symm, ?_⟩
      intro t f2 hf2
      rcases f2 with _ | f2'
      · omega
      · rw [cutLoop_succ]
        simp only [hc, if_false, ite_false]
        rw [cutExit]
        simp [← hn, h1]

theorem cutAfterJs_run (s p : List Char) (h : cutAfterJs s = .cut p) :
    ∃ n, cutLoop (s.length + 1) s 0 none 0 = .found n ∧ p = s.take n := by
  rw [cutAfterJs] at h
  split at h
  · exact CutAnswer.noConfusion h
  · exact CutAnswer.noConfusion h
  · rename_i n hfound
    injection h with hp
    exact ⟨n, hfound, hp.symm⟩

theorem cutAfterJs_found_eq (cs : List Char) (n : Nat) (hn : n = cs.length)
    (hst : ∀ t (f2 : Nat), cs.length < f2 →
      cutLoop f2 (cs ++ t) 0 none 0 = .found n) :
    ∀ t, cutAfterJs (cs ++ t) = .cut cs := by
  intro t
  rw [cutAfterJs]
  rw [hst t ((cs ++ t).length + 1) (by simp; omega)]
  rw [hn]
  simp

/-- C8 (amended): whenever `cut_after_js` succeeds it returns a prefix of
its input, that prefix is a complete balanced chunk whose scan is entirely
independent of the trailing characters (the same prefix is returned for
every continuation), and no proper prefix of it is ever returned by
`cut_after_js` on any continuation — i.e. the returned prefix is the
minimal lexically balanced prefix under the scanner's lexical rules
(strings, comments, and regex literals opened by a `/` whose
`last_significant` marker — the last non-whitespace character processed
outside literals, brackets and quote characters excluded — is
non-alphanumeric). -/
theorem C8_cut_after_js_minimal_balanced_cut (s p : List Char)
    (h : cutAfterJs s = .cut p) :
    (∃ r, s = p ++ r) ∧ (∀ t, cutAfterJs (p ++ t) = .cut p) ∧
      ∀ q v u, p = q ++ v → v ≠ [] → cutAfterJs (q ++ u) ≠ .cut q := by
  obtain ⟨n, hfound, hp⟩ := cutAfterJs_run s p h
  obtain ⟨cs, r, heq, hn, hst⟩ := cutLoop_consume _ _ _ _ _ _ hfound
  simp only [Nat.zero_add] at hn
  have hpcs : p = cs := by
    rw [hp, heq, hn]
    simp
  subst hpcs
  refine ⟨⟨r, heq⟩, cutAfterJs_found_eq p n hn hst, ?_⟩
  intro q v u hqv hv hcontra
  obtain ⟨m, hfound2, hq2⟩ := cutAfterJs_run (q ++ u) q hcontra
  obtain ⟨cs2, r2, heq2, hm, hst2⟩ := cutLoop_consume _ _ _ _ _ _ hfound2
  simp only [Nat.zero_add] at hm
  have hqcs2 : q = cs2 := by
    rw [hq2, heq2, hm]
    simp
  subst hqcs2
  have hrun2 : cutLoop (s.length + 1) (q ++ (v ++ r)) 0 none 0 = .found m := by
    refine hst2 (v ++ r) (s.length + 1) ?_
    have : s = q ++ (v ++ r) := by rw [heq, hqv]; simp
    rw [this]
    simp
    omega
  have hs2 : s = q ++ (v ++ r) := by rw [heq, hqv]; simp
  rw [← hs2] at hrun2
  rw [hfound] at hrun2
  injection hrun2 with hnm
  have : q.length = p.length := by omega
  have : v.length = 0 := by
    have := congrArg List.length hqv
    simp at this
    omega
  exact hv (List.eq_nil_of_length_eq_zero this)

/-- Scanner variant that follows the specification's words instead of the
code: the specification says the regex/division decision looks at "the
last significant (non-whitespace) character seen", so here every
non-whitespace character that the outer loop processes — including
brackets and the closing quote of a skipped literal — updates the
`last_significant` register.  The code (src/utils.rs line 1254) updates it
only in the final catch-all match arm, so brackets, quotes and skipped
literals leave it untouched.  Used to exhibit the divergence between the
two readings. -/
def cutLoopSpec : Nat → List Char → Int → Option Char → Nat → CutResult
  | 0, _, nest, _, idx =>
    if nest > 0 ∨ idx = 0 then .aborted else cutExit idx
  | fuel + 1, rest, nest, ls, idx =>
    if nest > 0 ∨ idx = 0 then
      match rest with
      | [] => .noMatch
      | c :: rs =>
        if isOpener c then cutLoopSpec fuel rs (nest + 1) (some c) (idx + 1)
        else if isCloser c then cutLoopSpec fuel rs (nest - 1) (some c) (idx + 1)
        else if isQuote c then
          match skipLit c rs with
          | none => .aborted
          | some (consumed, rem) =>
            cutLoopSpec fuel rem nest (some c) (idx + 1 + consumed.length)
        else if c = '/' then
          match rs with
          | [] => .aborted
          | d :: rs2 =>
            if d = '*' then
              match skipComment rs2 with
              | none => .aborted
              | some (consumed, rem) =>
                cutLoopSpec fuel rem nest ls (idx + 2 + consumed.length)
            else if (ls.map fun x => !x.isAlphanum).getD false then
              match skipLit '/' rs with
              | none => .aborted
              | some (consumed, rem) =>
                cutLoopSpec fuel rem nest (some '/') (idx + 1 + consumed.length)
            else cutLoopSpec fuel rs nest (some '/') (idx + 1)
        else if !isAsciiWs c then cutLoopSpec fuel rs nest (some c) (idx + 1)
        else cutLoopSpec fuel rs nest ls (idx + 1)
    else cutExit idx

/-- Variant of `cut_after_js` under the specification's reading of
`last_significant` (see `cutLoopSpec`). -/
def cutAfterJsSpec (s : List Char) : CutAnswer :=
  match cutLoopSpec (s.length + 1) s 0 none 0 with
  | .aborted => .aborted
  | .noMatch => .noMatch
  | .found n => .cut (s.take n)

/-- C8 counterexample: on `\x7b[1]/ \x7dx` the `/` is textually preceded by
the non-alphanumeric significant character `]`, so by the claim's rule it
opens a regex literal; no closing `/` follows, so under the claim's
reading no balanced prefix exists and the scan dies inside the literal
(the spec-faithful scanner `cutAfterJsSpec` never returns a prefix here).
The code instead keeps `last_significant = '1'` — brackets do not update
the register — treats the `/` as division, and happily returns the
balanced prefix `\x7b[1]/ \x7d`. -/
theorem C8_counterexample :
    cutAfterJs "\x7b[1]/ \x7dx".data = .cut "\x7b[1]/ \x7d".data ∧
      (']'.isAlphanum = false) ∧
      cutAfterJsSpec "\x7b[1]/ \x7dx".data = .aborted ∧
      cutAfterJsSpec "\x7b[1]/ \x7dx".data ≠ cutAfterJs "\x7b[1]/ \x7dx".data := by
  refine ⟨by decide, by decide, by decide, by decide⟩

/-- C8 witness: the amended theorem applied to the concrete input
`\x7ba\x7dzz`, giving trailing-independence at the continuation `xy`. -/
theorem C8_witness :
    cutAfterJs ("\x7ba\x7d".data ++ "xy".data) = .cut "\x7ba\x7d".data :=
  (C8_cut_after_js_minimal_balanced_cut "\x7ba\x7dzz".data "\x7ba\x7d".data
    (by decide)).2.1 "xy".data

/-- C9 (amended): `cut_after_js` returns `None` when the input runs out at
the outer scanning loop (between lexical items) while the depth is still
positive, and when the first character is an ordinary character or a
closing bracket (one-character consumption); but an input *starting* with
a string or comment literal returns that literal instead of `None`, and
running out of input *inside* an unterminated string, comment or regex
literal is an out-of-bounds panic, not `None`. -/
theorem C9_cut_after_js_no_match (c : Char) (s : List Char)
    (hop : isOpener c = false) (hq : isQuote c = false) (hsl : c ≠ '/') :
    cutAfterJs (c :: s) = .noMatch ∧
      ∀ (fuel : Nat) (nest : Int) (ls : Option Char) (idx : Nat),
        nest > 0 ∨ idx = 0 → cutLoop (fuel + 1) [] nest ls idx = .noMatch := by
  constructor
  · rw [cutAfterJs]
    have hstep : cutLoop ((c :: s).length + 1) (c :: s) 0 none 0 = .noMatch := by
      rw [show (c :: s).length + 1 = s.length + 1 + 1 by simp]
      rw [cutLoop_succ]
      simp only [gt_iff_lt, lt_self_iff_false, false_or, if_true, ite_true,
        cutStep, hop, hq, hsl, Bool.false_eq_true, if_false, ite_false]
      rcases hcl : isCloser c with _ | _
      · simp only [Bool.false_eq_true, if_false, ite_false]
        rcases hw : isAsciiWs c with _ | _
        all_goals {
          simp only [Bool.not_false, Bool.not_true, if_true, ite_true,
            Bool.false_eq_true, if_false, ite_false]
          rw [cutLoop_succ]
          simp [cutExit]
        }
      · simp only [if_true, ite_true]
        rw [cutLoop_succ]
        simp [cutExit]
    rw [hstep]
  · intro fuel nest ls idx hcond
    rw [cutLoop_succ]
    simp [hcond, cutStep]

/-- C9 counterexample: the input `\x22ab\x22xyz` starts with a double quote,
which opens no nesting level; the claim then requires "no match", but the
code consumes the whole string literal and returns it as a successful
prefix. -/
theorem C9_counterexample :
    isOpener dquote = false ∧
      cutAfterJs "\x22ab\x22xyz".data = .cut "\x22ab\x22".data ∧
      cutAfterJs "\x22ab\x22xyz".data ≠ .noMatch := by
  refine ⟨by decide, by decide, by decide⟩

/-- C9 witness: the amended theorem applied at the ordinary character `x`
and at the concrete exhausted-loop state. -/
theorem C9_witness :
    cutAfterJs ('x' :: "yz".data) = .noMatch ∧
      cutLoop (4 + 1) [] 3 none 2 = .noMatch := by
  have h := C9_cut_after_js_no_match 'x' "yz".data (by decide) (by decide)
    (by decide)
  exact ⟨h.1, h.2 4 3 none 2 (by decide)⟩

/-- A word character for the regex word-boundary `\b` (letters, digits,
underscore). -/
def isWordChar (c : Char) : Bool := c.isAlphanum || c = '_'

/-- Hexadecimal digit value, for percent-decoding. -/
def hexVal (c : Char) : Option Nat :=
  if '0' ≤ c ∧ c ≤ '9' then some (c.toNat - '0'.toNat)
  else if 'a' ≤ c ∧ c ≤ 'f' then some (c.toNat - 'a'.toNat + 10)
  else if 'A' ≤ c ∧ c ≤ 'F' then some (c.toNat - 'A'.toNat + 10)
  else none

/-- Percent-decoding as performed by `urlencoding::decode`
(src/parser/ncode.rs line 8): `%XY` with two hex digits becomes the
corresponding character, malformed escapes are kept verbatim (the code
falls back to the raw string on a decode error). -/
def pctDecode : List Char → List Char
  | [] => []
  | '%' :: a :: b :: rest =>
    match hexVal a, hexVal b with
    | some ha, some hb => Char.ofNat (16 * ha + hb) :: pctDecode rest
    | _, _ => '%' :: pctDecode (a :: b :: rest)
  | c :: rest => c :: pctDecode rest

/-- One `key=value` unit of a query string: split at the first `=`
(everything after it, further `=` included, is the value; no `=` gives an
empty value), then form-decode both parts (`+` is a space). -/
def parseQsPair (l : List Char) : String × String :=
  let ks := l.takeWhile (fun c => c ≠ '=')
  let vs := (l.drop (ks.length + 1)).map fun c => if c = '+' then ' ' else c
  let ks2 := ks.map fun c => if c = '+' then ' ' else c
  (String.mk (pctDecode ks2), String.mk (pctDecode vs))

/-- Model of `serde_qs::from_str` into a flat string map
(src/parser/cipher.rs line 12, src/parser/ncode.rs line 8): split the
input on `&`, split each unit at its first `=`, form-decode both sides.
The crate's nested-key bracket syntax does not occur in the query strings
this program handles and is not modelled; duplicate keys do not occur
either, so first-match lookup is used. -/
def parseQs (s : String) : List (String × String) :=
  (s.data.splitOn '&').filterMap fun p =>
    if p = [] then none else some (parseQsPair p)

example : parseQs "url=abc&s=xyz" = [("url", "abc"), ("s", "xyz")] := by decide

example : parseQs "" = [] := by decide

/-- Outcome of evaluating one source text inside the embedded script
engine (boa): `err` models `Result::Err`, `nonString` a successful
evaluation whose value is not a string (or whose UTF-16 conversion to a
Rust string fails), `str` a string result. -/
inductive EvalOutcome where
  | err : EvalOutcome
  | nonString : EvalOutcome
  | str : String → EvalOutcome
deriving DecidableEq, Repr

/-- Abstract model of the boa script engine: `compile s` says whether
evaluating the extracted script source `s` in a fresh `Context` succeeds,
and `eval s call` is the outcome of evaluating the call expression `call`
in a context holding the compiled source `s`.  Theorems quantify over the
engine, so they hold for every engine behaviour. -/
structure Engine where
  compile : String → Bool
  eval : String → String → EvalOutcome

/-- The textual call expression both transformers hand to the engine
(src/parser/cipher.rs lines 49-53, src/parser/ncode.rs lines 32-36):
`format!(r#"{func_name}("{args}")"#)` splices the argument between two
literal double-quote characters. -/
def callString (funcName arg : String) : String :=
  funcName ++ "(\x22" ++ arg ++ "\x22)"

/-- Model of a parsed `url::Url` restricted to the shapes this program
meets: `scheme://host path ?query`.  The WHATWG normalisations that
matter here are kept: scheme and host are lowercased on parse and an
absent path serialises as `/`. -/
structure UrlM where
  scheme : String
  host : String
  path : String
  query : Option (List (String × String))
deriving DecidableEq, Repr

/-- First index at which `needle` occurs as a sublist of `haystack`
(model of Rust `str::find` for substring patterns). -/
def findSub (haystack needle : List Char) : Option Nat :=
  match haystack with
  | [] => if needle = [] then some 0 else none
  | _ :: rest =>
    if needle.isPrefixOf haystack then some 0
    else (findSub rest needle).map (· + 1)

example : findSub "abcdef".data "cd".data = some 2 := by decide

example : findSub "abcdef".data "xy".data = none := by decide

/-- Splits a raw query string into pairs without any decoding, as the
`url` crate's pair iteration does for the already-encoded queries handled
here (none of the query strings this program rewrites contain percent
escapes that round-trip differently). -/
def rawQsPairs (l : List Char) : List (String × String) :=
  (l.splitOn '&').filterMap fun p =>
    if p = [] then none
    else
      let ks := p.takeWhile (fun c => c ≠ '=')
      some (String.mk ks, String.mk (p.drop (ks.length + 1)))

/-- Model of `url::Url::parse` (src/parser/cipher.rs line 89,
src/parser/ncode.rs line 91, src/parser/mod.rs line 132) for inputs of
shape `scheme://host[/path][?query]`: lowercases scheme and host,
defaults the path to `/`; anything without a `://`, or with an empty
scheme or host, fails to parse (`None`), as the empty string does. -/
def urlParse (s : String) : Option UrlM :=
  match findSub s.data "://".data with
  | none => none
  | some i =>
    let scheme := s.data.take i
    let rest := s.data.drop (i + 3)
    let host := rest.takeWhile fun c => c ≠ '/' ∧ c ≠ '?'
    if scheme = [] ∨ host = [] ∨ ¬scheme.all (fun c => c.isAlpha) then none
    else
      let rest2 := rest.drop host.length
      let path := rest2.takeWhile fun c => c ≠ '?'
      let query :=
        if path.length = rest2.length then none
        else some (rawQsPairs (rest2.drop (path.length + 1)))
      some {
        scheme := String.mk (scheme.map Char.toLower)
        host := String.mk (host.map Char.toLower)
        path := if path = [] then "/" else String.mk path
        query := query }

/-- Serialisation of a `UrlM` (model of `url::Url::to_string`). -/
def urlToString (u : UrlM) : String :=
  u.scheme ++ "://" ++ u.host ++ u.path ++
    match u.query with
    | none => ""
    | some ps =>
      "?" ++ String.intercalate "&" (ps.map fun p => p.1 ++ "=" ++ p.2)

example : urlParse "https://example.com" =
    some ⟨"https", "example.com", "/", none⟩ := by decide

example : urlToString ⟨"https", "example.com", "/", none⟩ =
    "https://example.com/" := by decide

example : urlParse "" = none := by decide

example : urlParse "https://a/q?x=1&n=v" =
    some ⟨"https", "a", "/q", some [("x", "1"), ("n", "v")]⟩ := by decide

/-- Whether `decipher` must build a fresh engine context: the single-slot
cache (src/parser/cipher.rs lines 24-26) is reused only when the cached
key equals the current decipher source text. -/
def needCompile : Option String → String → Bool
  | some key, src => !(key == src)
  | none, _ => true

/-- The fallback value every failure path of `decipher` returns
(src/parser/cipher.rs lines 16-21, 34-39, 57-62, 68-73, 79-84, 92-97):
the decoded `url` field when present, otherwise the original input. -/
def decipherFallback (url : String) (args : List (String × String)) : String :=
  match args.lookup "url" with
  | none => url
  | some u => u

/-- Model of `decipher` (src/parser/cipher.rs lines 4-128).  The engine context is
modelled by the identity of its compiled source, so the cache slot is
`Option String`; the result is the rewritten (or fallback) URL together
with the cache slot after the call.  The query-string decode
(`serde_qs::from_str`, line 12) is modelled as total — its `unwrap` is
not exercised by the query strings this program meets. -/
def decipher (eng : Engine) (url : String) (ds : String × String)
    (cipherCache : Option String) : String × Option String :=
  let args := parseQs url
  if (args.lookup "s") = none ∨ ds.2 = "" then
    (decipherFallback url args, cipherCache)
  else if needCompile cipherCache ds.2 && !eng.compile ds.2 then
    (decipherFallback url args, cipherCache)
  else
    let cache2 := some ds.2
    match eng.eval ds.2 (callString ds.1 ((args.lookup "s").getD "")) with
    | .err => (decipherFallback url args, cache2)
    | .nonString => (decipherFallback url args, cache2)
    | .str result =>
      match urlParse ((args.lookup "url").getD "") with
      | none => (decipherFallback url args, cache2)
      | some u =>
        let queryName := (args.lookup "sp").getD "signature"
        let pairs := match u.query with
          | none => []
          | some ps => ps
        let rewritten := pairs.map fun p =>
          if p.1 = queryName then (p.1, result) else p
        let rewritten2 :=
          if pairs.any (fun p => p.1 = queryName) then rewritten
          else rewritten ++ [(queryName, result)]
        (urlToString { u with query := some rewritten2 }, cache2)


/-- Rewrites the `n` query parameter of `url` to `result` exactly as
`ncode` does after a successful transform (src/parser/ncode.rs lines
91-112): parse the URL (falling back to the unchanged input on a parse
error), replace the value of every pair named `n`, re-serialize.  Unlike
`decipher`, no pair is appended when `n` is absent. -/
def ncodeRewrite (url result : String) : String :=
  match urlParse url with
  | none => url
  | some u =>
    let pairs := match u.query with
      | none => []
      | some ps => ps
    let rewritten := pairs.map fun p =>
      if p.1 = "n" then (p.1, result) else p
    urlToString { u with query := some rewritten }

/-- Model of `ncode` (src/parser/ncode.rs lines 45-113).  `get_components` (line 7)
percent-decodes the whole URL and parses it as a query string; the `n`
key is looked up in the result.  The returned `Nat` counts the engine
executions this call performed (0 or 1), used to state the caching
claims; `Except.error ()` models the panics of `create_transform_script`
(line 15, `unwrap` on a compile failure) and `execute_transform_script`
(line 36, `unwrap` on an evaluation error). -/
def ncode (eng : Engine) (url : String) (ns : String × String)
    (cache : List (String × String)) :
    Except Unit (String × List (String × String) × Nat) :=
  let components := parseQs (String.mk (pctDecode url.data))
  match components.lookup "n" with
  | none => .ok (url, cache, 0)
  | some nv =>
    if ns.2 = "" then .ok (url, cache, 0)
    else
      match cache.lookup nv with
      | some result => .ok (ncodeRewrite url result, cache, 0)
      | none =>
        if eng.compile ns.2 = false then .error ()
        else
          match eng.eval ns.2 (callString ns.1 nv) with
          | .err => .error ()
          | .nonString => .ok (url, cache, 1)
          | .str result =>
            .ok (ncodeRewrite url result, (nv, result) :: cache, 1)

/-- A concrete engine whose evaluations never produce a string; used to
exercise failure paths on concrete inputs. -/
def engNonString : Engine := ⟨fun _ => true, fun _ _ => .nonString⟩

/-- A concrete engine whose script compilation always fails. -/
def engNoCompile : Engine := ⟨fun _ => false, fun _ _ => .nonString⟩

/-- A concrete engine whose evaluations always error. -/
def engEvalErr : Engine := ⟨fun _ => true, fun _ _ => .err⟩

/-- A concrete engine that always produces the string `"T"`. -/
def engStrT : Engine := ⟨fun _ => true, fun _ _ => .str "T"⟩

/-- C1 (amended): with an empty decipher source (and likewise when the
decoded query has no `s` field), `decipher` returns the *decoded `url`
field* when one is present, and only otherwise the original input string;
the context cache is left untouched.  The claim's "original input string
unchanged" only holds for inputs whose decoded field set lacks `url`. -/
theorem C1_decipher_empty_source (eng : Engine) (url : String)
    (ds : String × String) (cache : Option String) (h : ds.2 = "") :
    decipher eng url ds cache =
      (decipherFallback url (parseQs url), cache) := by
  rw [decipher]
  simp [h]

/-- C1 witness: the amended theorem applied at a concrete query string
with a `url` field. -/
theorem C1_witness :
    decipher engNonString "url=https%3A%2F%2Fz&s=sg" ("f", "") none =
      (decipherFallback "url=https%3A%2F%2Fz&s=sg"
        (parseQs "url=https%3A%2F%2Fz&s=sg"), none) :=
  C1_decipher_empty_source engNonString "url=https%3A%2F%2Fz&s=sg" ("f", "")
    none rfl

/-- C1 counterexample: the input `url=abc&s=xyz` decodes into the
expected field set and the decipher source is empty, so the claim
demands the original input string back; the code instead returns the
decoded `url` field `abc` (src/parser/cipher.rs lines 15-22). -/
theorem C1_counterexample :
    decipher engNonString "url=abc&s=xyz" ("f", "") none = ("abc", none) ∧
      ("abc" : String) ≠ "url=abc&s=xyz" := by
  refine ⟨by decide, by decide⟩

/-- C4 (amended): inside the N-Transformer only a non-string evaluation
result is caught (the URL is returned unchanged and nothing is cached);
a script compilation failure or an evaluation error is *not* caught —
the `unwrap`s in `create_transform_script` and
`execute_transform_script` (src/parser/ncode.rs lines 15 and 36) panic
and abort instead of falling back. -/
theorem C4_ncode_engine_failures (eng : Engine) (url : String)
    (ns : String × String) (cache : List (String × String)) (nv : String)
    (hnv : (parseQs (String.mk (pctDecode url.data))).lookup "n" = some nv)
    (hs : ¬ns.2 = "") (hm : cache.lookup nv = none) :
    (eng.compile ns.2 = false → ncode eng url ns cache = .error ()) ∧
      (eng.compile ns.2 = true →
        eng.eval ns.2 (callString ns.1 nv) = .err →
        ncode eng url ns cache = .error ()) ∧
      (eng.compile ns.2 = true →
        eng.eval ns.2 (callString ns.1 nv) = .nonString →
        ncode eng url ns cache = .ok (url, cache, 1)) := by
  refine ⟨fun hcomp => ?_, fun hcomp herr => ?_, fun hcomp hns => ?_⟩
  · rw [ncode]
    simp only [hnv, hs, hm, if_false, ite_false, hcomp]
    simp
  · rw [ncode]
    simp only [hnv, hs, hm, if_false, ite_false, hcomp]
    simp only [Bool.true_eq_false, if_false, ite_false]
    rw [herr]
  · rw [ncode]
    simp only [hnv, hs, hm, if_false, ite_false, hcomp]
    simp only [Bool.true_eq_false, if_false, ite_false]
    rw [hns]

/-- C4 witness: the amended theorem applied at a concrete URL carrying an
uncached `n` value, once per failure kind (compilation failure and
evaluation error panic; a non-string result falls back to the URL). -/
theorem C4_witness :
    ncode engNoCompile "https://a/?x=1&n=abc" ("f", "S") [] = .error () ∧
      ncode engEvalErr "https://a/?x=1&n=abc" ("f", "S") [] = .error () ∧
      ncode engNonString "https://a/?x=1&n=abc" ("f", "S") [] =
        .ok ("https://a/?x=1&n=abc", [], 1) := by
  refine ⟨(C4_ncode_engine_failures engNoCompile _ ("f", "S") [] "abc"
      (by decide) (by decide) (by decide)).1 rfl,
    (C4_ncode_engine_failures engEvalErr _ ("f", "S") [] "abc"
      (by decide) (by decide) (by decide)).2.1 rfl rfl,
    (C4_ncode_engine_failures engNonString _ ("f", "S") [] "abc"
      (by decide) (by decide) (by decide)).2.2 rfl rfl⟩

/-- C4 counterexample: with a non-empty n-transform source, an uncached
`n` value and an engine whose compilation fails, the claim demands the
input URL back; `ncode` instead panics (`Except.error`, modelling the
`unwrap` of `create_transform_script`).  The same input with an
evaluation-error engine panics in `execute_transform_script`. -/
theorem C4_counterexample :
    ncode engNoCompile "https://b/?a=0&n=zz" ("g", "SRC") [] = .error () ∧
      ncode engEvalErr "https://b/?a=0&n=zz" ("g", "SRC") [] = .error () ∧
      (Except.error () : Except Unit (String × List (String × String) × Nat)) ≠
        .ok ("https://b/?a=0&n=zz", [], 1) := by
  refine ⟨by rfl, by rfl, by simp⟩

/-- C10 (amended): the ValueCache is append-only — existing entries are
never overwritten or dropped — a cache hit is served without invoking the
engine, and a miss whose execution yields a string stores the result so
that a later call with the same `n` value runs zero executions.  However
a call whose execution yields a non-string stores nothing, so a later
call with the same `n` value executes the script again: "executed at most
once per `n` value" only holds for values whose transform succeeds. -/
theorem C10_ncode_value_cache (eng : Engine) (url : String)
    (ns : String × String) (cache : List (String × String)) (nv r : String)
    (hnv : (parseQs (String.mk (pctDecode url.data))).lookup "n" = some nv)
    (hs : ¬ns.2 = "") :
    (∀ k v res, cache.lookup k = some v → ncode eng url ns cache = .ok res →
        res.2.1.lookup k = some v) ∧
      (cache.lookup nv = some r →
        ncode eng url ns cache = .ok (ncodeRewrite url r, cache, 0)) ∧
      (cache.lookup nv = none → eng.compile ns.2 = true →
        eng.eval ns.2 (callString ns.1 nv) = .str r →
        ncode eng url ns cache = .ok (ncodeRewrite url r, (nv, r) :: cache, 1) ∧
          ncode eng url ns ((nv, r) :: cache) =
            .ok (ncodeRewrite url r, (nv, r) :: cache, 0)) := by
  refine ⟨?_, ?_, ?_⟩
  · intro k v res hk hres
    rw [ncode] at hres
    simp only [hnv, hs, if_false, ite_false] at hres
    rcases hhit : cache.lookup nv with _ | r2
    · simp only [hhit] at hres
      rcases hcomp : eng.compile ns.2 with _ | _
      · simp [hcomp] at hres
      · simp only [hcomp, Bool.true_eq_false, if_false, ite_false] at hres
        rcases hev : eng.eval ns.2 (callString ns.1 nv) with _ | _ | r3
        · rw [hev] at hres
          exact Except.noConfusion hres
        · rw [hev] at hres
          injection hres with hres2
          rw [← hres2]
          exact hk
        · rw [hev] at hres
          injection hres with hres2
          rw [← hres2]
          have hkne : (k == nv) = false := by
            rcases hb : (k == nv) with _ | _
            · rfl
            · rw [show k = nv from by simpa using hb] at hk
              rw [hk] at hhit
              exact Option.noConfusion hhit
          simpa [List.lookup, hkne] using hk
    · simp only [hhit] at hres
      injection hres with hres2
      rw [← hres2]
      exact hk
  · intro hhit
    rw [ncode]
    simp only [hnv, hs, hhit, if_false, ite_false]
  · intro hmiss hcomp hev
    constructor
    · rw [ncode]
      simp only [hnv, hs, hmiss, hcomp, Bool.true_eq_false, if_false,
        ite_false]
      rw [hev]
    · rw [ncode]
      simp only [hnv, hs, if_false, ite_false]
      have : ((nv, r) :: cache).lookup nv = some r := by simp
      simp only [this]

/-- C10 witness: the amended theorem applied at a concrete URL and the
always-string engine — a miss stores the value, the follow-up call with
the same `n` value performs zero engine executions. -/
theorem C10_witness :
    ncode engStrT "https://a/?x=1&n=abc" ("f", "S") [] =
        .ok (ncodeRewrite "https://a/?x=1&n=abc" "T", [("abc", "T")], 1) ∧
      ncode engStrT "https://a/?x=1&n=abc" ("f", "S") [("abc", "T")] =
        .ok (ncodeRewrite "https://a/?x=1&n=abc" "T", [("abc", "T")], 0) :=
  (C10_ncode_value_cache engStrT "https://a/?x=1&n=abc" ("f", "S") [] "abc" "T"
    (by decide) (by decide)).2.2 rfl rfl rfl

/-- C10 counterexample: with an engine whose execution never yields a
string, a first call with `n = abc` executes the script once and caches
nothing, so a second call with the very same `n` value executes it again
— one execution per call, two in total, where the claim allows at most
one per `n` value and demands the second call be served from the cache
without invoking the engine. -/
theorem C10_counterexample :
    ncode engNonString "https://a/?x=1&n=abc" ("f", "S") [] =
        .ok ("https://a/?x=1&n=abc", [], 1) ∧
      (ncode engNonString "https://a/?x=1&n=abc" ("f", "S") []).bind
          (fun res => ncode engNonString "https://a/?x=1&n=abc" ("f", "S")
            res.2.1) =
        .ok ("https://a/?x=1&n=abc", [], 1) := by
  refine ⟨by rfl, by rfl⟩

/-- Scans a JavaScript double-quoted string literal body (the part after
the opening quote): stops at the first unescaped closing quote and
returns the literal's value, with a backslash escaping the following
character.  Models how the script engine lexes the textual call
expression built by `callString`; `none` means the literal never
closes. -/
def jsLitScan : List Char → Option (List Char)
  | [] => none
  | c :: rest =>
    if c = dquote then some []
    else if c = '\\' then
      match rest with
      | [] => none
      | d :: rest2 => (jsLitScan rest2).map (d :: ·)
    else (jsLitScan rest).map (c :: ·)

/-- The value of the first double-quoted string literal in a piece of
source text, as the script engine's lexer sees it. -/
def jsFirstLiteral (s : String) : Option String :=
  ((s.data.dropWhile (fun c => c ≠ dquote)).tail?).bind
    fun rest => (jsLitScan rest).map String.mk

example : jsFirstLiteral "f(\x22abc\x22)" = some "abc" := by decide

theorem jsLitScan_clean (a : List Char) (rest : List Char)
    (ha : ∀ c ∈ a, c ≠ dquote ∧ c ≠ '\\') :
    jsLitScan (a ++ dquote :: rest) = some a := by
  induction a with
  | nil =>
    rw [List.nil_append, jsLitScan.eq_def]
    simp
  | cons c a2 ih =>
    have hc := ha c (by simp)
    rw [List.cons_append, jsLitScan.eq_def]
    simp only [hc.1, hc.2, if_false, ite_false]
    rw [ih fun d hd => ha d (by simp [hd])]
    rfl

theorem dropWhile_no_quote (a rest : List Char)
    (ha : ∀ c ∈ a, c ≠ dquote) :
    (a ++ rest).dropWhile (fun c => c ≠ dquote) =
      rest.dropWhile (fun c => c ≠ dquote) := by
  induction a with
  | nil => simp
  | cons c a2 ih =>
    rw [List.cons_append, List.dropWhile_cons]
    rw [if_pos (decide_eq_true (ha c (by simp)))]
    exact ih fun d hd => ha d (by simp [hd])

/-- C7 (amended): both transformers invoke the extracted function by
splicing the argument between literal quotes in a textual call expression
(`callString`, used at src/parser/cipher.rs line 49 and
src/parser/ncode.rs line 33).  Only when neither the function name nor
the argument contains a double quote, and the argument contains no
backslash, does the engine receive exactly the argument string as the
call's literal; metacharacter-bearing arguments are not passed
verbatim. -/
theorem C7_call_string_literal (f a : String)
    (hf : ∀ c ∈ f.data, c ≠ dquote)
    (ha : ∀ c ∈ a.data, c ≠ dquote ∧ c ≠ '\\') :
    jsFirstLiteral (callString f a) = some a := by
  rw [jsFirstLiteral, callString]
  have hdata : (f ++ "(\x22" ++ a ++ "\x22)").data =
      (f.data ++ ['(']) ++ dquote :: (a.data ++ dquote :: [')']) := by
    simp [String.data_append]
    rfl
  rw [hdata]
  rw [dropWhile_no_quote (f.data ++ ['(']) _ ?_]
  · rw [List.dropWhile_cons]
    rw [if_neg (by simp)]
    simp only [List.tail?, Option.bind]
    rw [jsLitScan_clean a.data [')'] ha]
    rfl
  · intro c hc
    rcases List.mem_append.mp hc with h1 | h1
    · exact hf c h1
    · simp at h1
      rw [h1]
      decide

/-- C7 witness: the amended theorem applied at a metacharacter-free
function name and argument. -/
theorem C7_witness : jsFirstLiteral (callString "fn" "sig123") = some "sig123" :=
  C7_call_string_literal "fn" "sig123" (by decide) (by decide)

/-- C7 counterexample: both transformers build the engine input by
textual interpolation (`callString` is exactly the `format!` of
src/parser/cipher.rs lines 49-53 and src/parser/ncode.rs lines 32-36),
so for the argument `ab"cd` — which contains a double quote — the call
expression's first string literal is `ab`: the named function is *not*
invoked with the argument string, refuting both the "native
value-passing" and the "exactly that string" parts of the claim. -/
theorem C7_counterexample :
    callString "f" "ab\x22cd" = "f(\x22ab\x22cd\x22)" ∧
      jsFirstLiteral (callString "f" "ab\x22cd") = some "ab" ∧
      some ("ab" : String) ≠ some "ab\x22cd" := by
  refine ⟨by decide, by decide, by decide⟩

/-- Modelled from the spec: the `VideoFormat` record type is declared in
src/structs.rs, which is not among the sources; §3 (RawFormatEntry /
ResolvedFormat) lists the repaired `url`, the five derived capability
flags, and the raw descriptive fields (quality label, bitrate, audio
bitrate, content length).  Only the fields the embedded functions read
are modelled. -/
structure VideoFormat where
  url : String
  has_video : Bool
  has_audio : Bool
  is_live : Bool
  is_hls : Bool
  is_dash_mpd : Bool
  bitrate : Int
  quality_label : Option String
  audio_bitrate : Option Int
  content_length : Option String
deriving DecidableEq, Repr

/-- Modelled from the spec (§3 CapabilityFilter): the enum itself is
declared in src/structs.rs (absent from the sources); the four variants
are the ones `filter_formats` in src/utils.rs lines 156-171 matches on
(its `_` arm is the Default audio+video filter). -/
inductive VideoSearchOptions where
  | Audio : VideoSearchOptions
  | Video : VideoSearchOptions
  | VideoAudio : VideoSearchOptions
  | Custom : (VideoFormat → Bool) → VideoSearchOptions

/-- Model of `filter_formats` (src/utils.rs lines 156-171): `retain` keeps records
matching the capability predicate, with live records always kept. -/
def filter_formats (formats : List VideoFormat) (options : VideoSearchOptions) :
    List VideoFormat :=
  match options with
  | .Audio => formats.filter fun x => (!x.has_video && x.has_audio) || x.is_live
  | .Video => formats.filter fun x => (x.has_video && !x.has_audio) || x.is_live
  | .Custom f => formats.filter fun x => f x || x.is_live
  | .VideoAudio => formats.filter fun x => (x.has_video && x.has_audio) || x.is_live

/-- The filter stage of `choose_format` (src/utils.rs lines 179-186): the
capability filter, then — when any surviving record is HLS — `retain`
with the predicate `is_hls || !is_live`. -/
def choose_format_filter_stage (formats : List VideoFormat)
    (filter : VideoSearchOptions) : List VideoFormat :=
  let fs := filter_formats formats filter
  if fs.any (fun x => x.is_hls) then
    fs.filter fun fmt => fmt.is_hls || !fmt.is_live
  else fs

/-- C2 (amended): in the Format Selector's filter stage, when at least
one record surviving the capability filter is flagged HLS, every
remaining record that is live but *not* HLS is dropped — after this stage
every kept record is HLS or non-live.  (The claim has it backwards: the
retain predicate is `is_hls || !is_live`, not `is_hls || is_live`, so
non-HLS non-live records are kept, and non-HLS live records are the ones
dropped.) -/
theorem C2_hls_filter_stage (formats : List VideoFormat)
    (filter : VideoSearchOptions)
    (hany : (filter_formats formats filter).any (fun x => x.is_hls) = true) :
    ∀ f ∈ choose_format_filter_stage formats filter,
      f.is_hls = true ∨ f.is_live = false := by
  intro f hf
  rw [choose_format_filter_stage] at hf
  simp only [hany, if_true, ite_true] at hf
  have := (List.mem_filter.mp hf).2
  rcases h1 : f.is_hls with _ | _
  · rcases h2 : f.is_live with _ | _
    · exact Or.inr rfl
    · rw [h1, h2] at this
      simp at this
  · exact Or.inl rfl

/-- A concrete HLS live-capable fixture record. -/
def fmtHls : VideoFormat :=
  ⟨"https://h/manifest/hls_variant/x", true, true, false, true, false, 300,
    some "480p", some 64, some "1"⟩

/-- A concrete plain (neither HLS nor live) fixture record. -/
def fmtPlain : VideoFormat :=
  ⟨"https://p/v", true, true, false, false, false, 500, some "720p",
    some 128, some "2"⟩

/-- A concrete live, non-HLS fixture record. -/
def fmtLive : VideoFormat :=
  ⟨"https://l/source/yt_live_broadcast", true, true, true, false, false, 200,
    some "360p", some 48, some "3"⟩

/-- C2 witness: the amended theorem applied at a concrete two-record
list surviving the Default capability filter with one HLS record, fully
instantiated at the kept record `fmtPlain`. -/
theorem C2_witness : fmtPlain.is_hls = true ∨ fmtPlain.is_live = false :=
  C2_hls_filter_stage [fmtHls, fmtPlain] .VideoAudio (by decide) fmtPlain
    (by decide)

/-- C2 counterexample: with the HLS fixture present, the claim demands
that `fmtPlain` (neither HLS nor live) be dropped, and that after the
stage every kept record be HLS or live; the code keeps `fmtPlain` —
its retain predicate is `is_hls || !is_live` — and instead drops the
live non-HLS record `fmtLive`. -/
theorem C2_counterexample :
    choose_format_filter_stage [fmtHls, fmtPlain, fmtLive] .VideoAudio =
        [fmtHls, fmtPlain] ∧
      fmtPlain.is_hls = false ∧ fmtPlain.is_live = false ∧
      fmtLive.is_live = true ∧ fmtLive.is_hls = false := by
  refine ⟨by decide, by decide, by decide, by decide, by decide⟩

/-- Model of a `serde_json::Value`: objects are ordered association
lists, as `serde_json`'s order-preserving map is. -/
inductive JVal where
  | jnull : JVal
  | jbool : Bool → JVal
  | jnum : Int → JVal
  | jstr : String → JVal
  | jarr : List JVal → JVal
  | jobj : List (String × JVal) → JVal
deriving BEq, Repr

/-- Object lookup (`Map::get`). -/
def objGet (fields : List (String × JVal)) (k : String) : Option JVal :=
  fields.lookup k

/-- Object insertion (`Map::insert`): replaces the value in place when
the key exists, appends otherwise — `serde_json`'s preserve-order map
behaviour. -/
def objInsert (fields : List (String × JVal)) (k : String) (v : JVal) :
    List (String × JVal) :=
  if (fields.lookup k).isSome then
    fields.map fun p => if p.1 = k then (k, v) else p
  else fields ++ [(k, v)]

/-- Object removal (`Map::remove`). -/
def objRemove (fields : List (String × JVal)) (k : String) :
    List (String × JVal) :=
  fields.filter fun p => p.1 ≠ k

/-- Model of `Value::as_str().unwrap_or("")` on an optional value. -/
def asStrD (v : Option JVal) : String :=
  match v with
  | some (.jstr s) => s
  | _ => ""

/-- The regex `\bsource[/=]yt_live_broadcast\b` of `add_format_meta`
(src/utils.rs lines 127-128), checked at one position given the
preceding character. -/
def liveHere (prev : Option Char) (l : List Char) : Bool :=
  (match prev with
    | none => true
    | some p => !isWordChar p) &&
  ("source".data.isPrefixOf l) &&
  (match l.drop 6 with
    | d :: l3 =>
      (d = '/' || d = '=') && ("yt_live_broadcast".data.isPrefixOf l3) &&
        (match l3.drop 17 with
         | [] => true
         | e :: _ => !isWordChar e)
    | [] => false)

/-- Whether the live-broadcast regex matches anywhere in the string. -/
def isLiveAux : Option Char → List Char → Bool
  | prev, l =>
    liveHere prev l ||
      match l with
      | [] => false
      | c :: rest => isLiveAux (some c) rest

/-- Model of `REGEX_IS_LIVE.is_match` (src/utils.rs line 136). -/
def isLiveUrl (s : String) : Bool := isLiveAux none s.data

/-- Substring containment, via `findSub`. -/
def containsSub (haystack needle : List Char) : Bool :=
  (findSub haystack needle).isSome

/-- Model of `REGEX_IS_HLS.is_match` (src/utils.rs lines 129-130):
`/manifest/hls_(variant|playlist)/`. -/
def isHlsUrl (s : String) : Bool :=
  containsSub s.data "/manifest/hls_variant/".data ||
    containsSub s.data "/manifest/hls_playlist/".data

/-- Model of `REGEX_IS_DASHMPD.is_match` (src/utils.rs line 131):
`/manifest/dash/`. -/
def isDashUrl (s : String) : Bool := containsSub s.data "/manifest/dash/".data

example : isLiveUrl "https://l/source/yt_live_broadcast" = true := by decide

example : isLiveUrl "https://l/sources/yt_live_broadcast" = false := by decide

example : isHlsUrl "https://h/manifest/hls_variant/x" = true := by decide

/-- Model of `add_format_meta` (src/utils.rs lines 112-153): derives `hasVideo`
from the presence of `qualityLabel`, `hasAudio` from `audioBitrate` or
`audioQuality`, and the three URL-pattern flags from the record's
`url`. -/
def add_format_meta (format : List (String × JVal)) : List (String × JVal) :=
  let f1 := objInsert format "hasVideo"
    (.jbool (objGet format "qualityLabel").isSome)
  let f2 := objInsert f1 "hasAudio"
    (.jbool ((objGet f1 "audioBitrate").isSome ||
      (objGet f1 "audioQuality").isSome))
  let url := asStrD (objGet f2 "url")
  let f3 := objInsert f2 "isLive" (.jbool (isLiveUrl url))
  let f4 := objInsert f3 "isHLS" (.jbool (isHlsUrl url))
  objInsert f4 "isDashMPD" (.jbool (isDashUrl url))

/-- Model of `set_download_url` (src/parser/mod.rs lines 78-141).  Returns the
value the function itself returns — the *re-parsed and re-serialised*
resolved URL — together with the mutated record and the two caches;
`Except.error ()` models the `unwrap` panic at line 138 when the
resolved URL fails to parse. -/
def set_download_url (eng : Engine) (format : List (String × JVal))
    (functions : List (String × String)) (nCache : List (String × String))
    (cCache : Option String) :
    Except Unit
      (String × List (String × JVal) × List (String × String) ×
        Option String) :=
  let emptyScript : String × String := ("", "")
  let ds := functions.headD emptyScript
  let ns := (functions.get? 1).getD emptyScript
  let cipher := (objGet format "url").isNone
  let url := asStrD (((objGet format "url").or
    ((objGet format "signatureCipher").or
      (objGet format "cipher"))).orElse fun _ => some (.jstr ""))
  let step : Except Unit (String × List (String × String) × Option String) :=
    if cipher then
      match decipher eng url ds cCache with
      | (durl, cCache2) =>
        match ncode eng durl ns nCache with
        | .error e => .error e
        | .ok (nurl, nCache2, _) => .ok (nurl, nCache2, cCache2)
    else
      match ncode eng url ns nCache with
      | .error e => .error e
      | .ok (nurl, nCache2, _) => .ok (nurl, nCache2, cCache)
  match step with
  | .error e => .error e
  | .ok (newUrl, nCache2, cCache2) =>
    let fmt2 := objRemove (objRemove
      (objInsert format "url" (.jstr newUrl)) "signatureCipher") "cipher"
    match urlParse (asStrD (objGet fmt2 "url")) with
    | none => .error ()
    | some u => .ok (urlToString u, fmt2, nCache2, cCache2)

/-- Modelled from the spec: `serde_json::from_value::<VideoFormat>`
deserialises against the `VideoFormat` schema of src/structs.rs, which is
not among the sources.  Per §3 and §4.7, a ResolvedFormat requires the
repaired `url` and the five derived flags; the descriptive fields
(quality label, bitrate, audio bitrate, content length) come from the raw
record, `bitrate` being mandatory (the ranking reads it unconditionally)
and the others optional.  A record failing any of these is rejected
(`none`). -/
def videoFormatOfJVal (v : JVal) : Option VideoFormat :=
  match v with
  | .jobj fields =>
    match objGet fields "url", objGet fields "hasVideo",
        objGet fields "hasAudio", objGet fields "isLive",
        objGet fields "isHLS", objGet fields "isDashMPD",
        objGet fields "bitrate" with
    | some (.jstr url), some (.jbool hv), some (.jbool ha),
        some (.jbool il), some (.jbool ih), some (.jbool idm),
        some (.jnum br) =>
      let ql := match objGet fields "qualityLabel" with
        | some (.jstr s) => some s
        | _ => none
      let ab := match objGet fields "audioBitrate" with
        | some (.jnum n) => some n
        | _ => none
      let cl := match objGet fields "contentLength" with
        | some (.jstr s) => some s
        | _ => none
      some ⟨url, hv, ha, il, ih, idm, br, ql, ab, cl⟩
    | _, _, _, _, _, _, _ => none
  | _ => none

/-- The per-record body of the resolution loop in `parse_video_formats`
(src/parser/mod.rs lines 34-54): objects get `set_download_url` applied
to a copy, then `signatureCipher`/`cipher` removed, the returned URL
written back and the capability flags attached; non-objects pass through
untouched (`as_object_mut().map`). -/
def processFormat (eng : Engine) (functions : List (String × String))
    (v : JVal) (nCache : List (String × String)) (cCache : Option String) :
    Except Unit (JVal × List (String × String) × Option String) :=
  match v with
  | .jobj fields =>
    match set_download_url eng fields functions nCache cCache with
    | .error e => .error e
    | .ok (newUrl, _, nCache2, cCache2) =>
      let x1 := objRemove (objRemove fields "signatureCipher") "cipher"
      let x2 := objInsert x1 "url" (.jstr newUrl)
      .ok (.jobj (add_format_meta x2), nCache2, cCache2)
  | other => .ok (other, nCache, cCache)

/-- The resolution loop of `parse_video_formats` over the concatenated
format lists, threading the two caches. -/
def processFormats (eng : Engine) (functions : List (String × String))
    (vs : List JVal) (nCache : List (String × String))
    (cCache : Option String) : Except Unit (List JVal) :=
  match vs with
  | [] => .ok []
  | v :: rest =>
    match processFormat eng functions v nCache cCache with
    | .error e => .error e
    | .ok (v2, nCache2, cCache2) =>
      match processFormats eng functions rest nCache2 cCache2 with
      | .error e => .error e
      | .ok vs2 => .ok (v2 :: vs2)

/-- Model of `parse_video_formats` (src/parser/mod.rs lines 14-75): `none` when
the metadata has no object shape or lacks the streaming section or its
two arrays; otherwise the records of `formats ++ adaptiveFormats` are
resolved (a panic anywhere aborts everything — `Except.error`), and the
resolved records that deserialise as `VideoFormat` are collected, the
rest silently dropped. -/
def parse_video_formats (eng : Engine) (info : JVal)
    (functions : List (String × String)) :
    Except Unit (Option (List VideoFormat)) :=
  match info with
  | .jobj fields =>
    if (objGet fields "streamingData").isSome then
      match objGet fields "streamingData" with
      | some (.jobj sd) =>
        match objGet sd "formats", objGet sd "adaptiveFormats" with
        | some (.jarr fs), some (.jarr afs) =>
          match processFormats eng functions (fs ++ afs) [] none with
          | .error e => .error e
          | .ok processed =>
            .ok (some (processed.filterMap videoFormatOfJVal))
        | _, _ => .ok none
      | _ => .ok none
    else .ok none
  | _ => .ok none

theorem lookup_map_replace (l : List (String × JVal)) (k : String) (v : JVal)
    (h : (l.lookup k).isSome = true) :
    List.lookup k (l.map fun p => if p.1 = k then (k, v) else p) = some v := by
  induction l with
  | nil => simp [List.lookup] at h
  | cons p rest ih =>
    by_cases hp : p.1 = k
    · simp only [List.map_cons, if_pos hp]
      simp [List.lookup]
    · have hbeq : (k == p.1) = false := by
        simp only [beq_eq_false_iff_ne, ne_eq]
        exact fun hk => hp hk.symm
      simp only [List.map_cons, if_neg hp]
      rw [List.lookup, hbeq]
      rw [List.lookup, hbeq] at h
      exact ih h

theorem lookup_append_single (l : List (String × JVal)) (k : String) (v : JVal)
    (h : (l.lookup k) = none) :
    List.lookup k (l ++ [(k, v)]) = some v := by
  induction l with
  | nil => simp [List.lookup]
  | cons p rest ih =>
    rw [List.lookup] at h
    rcases hbeq : (k == p.1) with _ | _
    · rw [hbeq] at h
      rw [List.cons_append, List.lookup, hbeq]
      exact ih h
    · rw [hbeq] at h
      simp at h

theorem objGet_objInsert_self (l : List (String × JVal)) (k : String)
    (v : JVal) : objGet (objInsert l k v) k = some v := by
  rw [objInsert]
  split
  · rename_i hsome
    exact lookup_map_replace l k v hsome
  · rename_i hnone
    exact lookup_append_single l k v
      (Option.not_isSome_iff_eq_none.mp (by simpa using hnone))

theorem objGet_objRemove_ne (l : List (String × JVal)) (k k2 : String)
    (h : ¬k = k2) : objGet (objRemove l k2) k = objGet l k := by
  rw [objGet, objGet, objRemove]
  induction l with
  | nil => simp
  | cons p rest ih =>
    rw [List.filter_cons]
    by_cases hp : p.1 = k2
    · rw [if_neg (by simp [hp])]
      rw [List.lookup]
      have hbeq : (k == p.1) = false := by
        simp only [beq_eq_false_iff_ne, ne_eq, hp]
        exact fun hk => h hk
      rw [hbeq]
      exact ih
    · rw [if_pos (by simpa using hp)]
      rw [List.lookup, List.lookup]
      rcases hbeq : (k == p.1) with _ | _
      · rw [ih]
      · rfl

theorem ncode_empty_script (eng : Engine) (u : String) (s1 : String)
    (cache : List (String × String)) :
    ncode eng u (s1, "") cache = .ok (u, cache, 0) := by
  rw [ncode]
  rcases h : (parseQs (String.mk (pctDecode u.data))).lookup "n" with _ | nv
  · simp [h]
  · simp [h]

/-- C3 (amended): resolving a record that carries a direct `url` and no
cipher field, with an empty n-transform, yields a resolved `url` equal to
the *parse-and-reserialise normalisation* of the input url
(`urlToString (urlParse url)`), not necessarily the byte-identical input:
src/parser/mod.rs lines 132-140 re-parse the resolved URL and return its
serialisation, which e.g. lowercases the scheme and host and appends a
`/` path to a bare authority.  The url is byte-identical exactly when the
input is already in serialised normal form. -/
theorem C3_format_resolver_direct_url (eng : Engine)
    (fields : List (String × JVal)) (u : String) (pu : UrlM)
    (hu : objGet fields "url" = some (.jstr u))
    (hparse : urlParse u = some pu) :
    set_download_url eng fields [] [] none =
      .ok (urlToString pu,
        objRemove (objRemove (objInsert fields "url" (.jstr u))
          "signatureCipher") "cipher", [], none) := by
  rw [set_download_url]
  simp only [hu, List.headD, List.get?, Option.getD, Option.or, Option.orElse,
    Option.isNone, asStrD, Bool.false_eq_true, if_false, ite_false,
    ncode_empty_script]
  rw [objGet_objRemove_ne _ "url" "cipher" (by decide)]
  rw [objGet_objRemove_ne _ "url" "signatureCipher" (by decide)]
  rw [objGet_objInsert_self]
  simp [hparse]

/-- C3 witness: the amended theorem applied at a concrete record whose
direct url is already normalised, so the output equals the input. -/
theorem C3_witness :
    set_download_url engNonString [("url", JVal.jstr "https://ex.org/a")] []
        [] none =
      .ok (urlToString ⟨"https", "ex.org", "/a", none⟩,
        objRemove (objRemove (objInsert [("url", JVal.jstr "https://ex.org/a")]
          "url" (.jstr "https://ex.org/a")) "signatureCipher") "cipher",
        [], none) :=
  C3_format_resolver_direct_url engNonString
    [("url", JVal.jstr "https://ex.org/a")] "https://ex.org/a"
    ⟨"https", "ex.org", "/a", none⟩ (by rfl) (by rfl)

/-- C3 counterexample: the record `\x7burl: "https://example.com"\x7d` has a
direct url and no cipher field; resolving it through the Format Resolver
with an empty n-transform yields `https://example.com/` — the re-parse
at src/parser/mod.rs lines 132-140 appends the root path — which is not
byte-identical to the input url. -/
theorem C3_counterexample :
    set_download_url engNonString [("url", JVal.jstr "https://example.com")]
        [] [] none =
      .ok ("https://example.com/",
        [("url", JVal.jstr "https://example.com")], [], none) ∧
      ("https://example.com/" : String) ≠ "https://example.com" := by
  refine ⟨by rfl, by decide⟩

/-- C6 (amended): when every record in the batch resolves without a
panic, the batch result is exactly the resolved records that deserialise
against the format schema — records failing structural validation are
dropped silently and do not abort the others.  However a record whose
*resolved url fails to parse* panics (the `unwrap` at
src/parser/mod.rs line 138) and aborts the entire batch, so "one
malformed record never aborts the batch" does not extend to
unparsable-url records. -/
theorem C6_parse_video_formats_drops (eng : Engine)
    (functions : List (String × String)) (fs afs processed : List JVal)
    (hp : processFormats eng functions (fs ++ afs) [] none = .ok processed) :
    parse_video_formats eng
        (.jobj [("streamingData", .jobj
          [("formats", .jarr fs), ("adaptiveFormats", .jarr afs)])])
        functions =
      .ok (some (processed.filterMap videoFormatOfJVal)) := by
  rw [parse_video_formats]
  simp only [objGet, List.lookup,
    show (("streamingData" == "streamingData") : Bool) = true from by decide,
    show (("formats" == "formats") : Bool) = true from by decide,
    show (("adaptiveFormats" == "formats") : Bool) = false from by decide,
    show (("adaptiveFormats" == "adaptiveFormats") : Bool) = true from by
      decide,
    Option.isSome_some, if_true, ite_true]
  rw [hp]

/-- A resolvable record that deserialises successfully. -/
def recGood : JVal :=
  .jobj [("url", .jstr "https://g/v"), ("bitrate", .jnum 5),
    ("qualityLabel", .jstr "720p"), ("audioBitrate", .jnum 9)]

/-- A resolvable record that fails schema validation afterwards (no
`bitrate`). -/
def recNoBitrate : JVal := .jobj [("url", .jstr "https://g/w")]

/-- A record with neither `url` nor a cipher field: its resolved url is
the empty string, which fails to parse. -/
def recEmpty : JVal := .jobj []

/-- C6 witness: the amended theorem applied at a concrete two-record
batch — the record failing schema validation is dropped silently while
the good record survives. -/
theorem C6_witness :
    parse_video_formats engNonString
        (.jobj [("streamingData", .jobj
          [("formats", .jarr [recGood, recNoBitrate]),
            ("adaptiveFormats", .jarr [])])]) [] =
      .ok (some [⟨"https://g/v", true, true, false, false, false, 5,
        some "720p", some 9, none⟩]) := by
  have h := C6_parse_video_formats_drops engNonString []
    [recGood, recNoBitrate] []
    [.jobj [("url", .jstr "https://g/v"), ("bitrate", .jnum 5),
        ("qualityLabel", .jstr "720p"), ("audioBitrate", .jnum 9),
        ("hasVideo", .jbool true), ("hasAudio", .jbool true),
        ("isLive", .jbool false), ("isHLS", .jbool false),
        ("isDashMPD", .jbool false)],
      .jobj [("url", .jstr "https://g/w"),
        ("hasVideo", .jbool false), ("hasAudio", .jbool false),
        ("isLive", .jbool false), ("isHLS", .jbool false),
        ("isDashMPD", .jbool false)]]
    (by rfl)
  exact h.trans (by rfl)

/-- C6 counterexample: a batch holding the malformed record `recEmpty`
(resolved url `""`, unparsable) next to the good record aborts wholesale
with a panic (`unwrap` at src/parser/mod.rs line 138) — the same batch
without the malformed record succeeds — so a single malformed record
*does* abort resolution of the rest of the batch. -/
theorem C6_counterexample :
    parse_video_formats engNonString
        (.jobj [("streamingData", .jobj
          [("formats", .jarr [recEmpty, recGood]),
            ("adaptiveFormats", .jarr [])])]) [] = .error () ∧
      parse_video_formats engNonString
        (.jobj [("streamingData", .jobj
          [("formats", .jarr [recGood]),
            ("adaptiveFormats", .jarr [])])]) [] =
        .ok (some [⟨"https://g/v", true, true, false, false, false, 5,
          some "720p", some 9, none⟩]) := by
  refine ⟨by rfl, by rfl⟩

/-- Model of `between` (src/utils.rs lines 1181-1197): the substring strictly
between the first occurrence of `left` and the next occurrence of `right`
after it; empty when either anchor is missing. -/
def between (haystack left right : String) : String :=
  match findSub haystack.data left.data with
  | none => ""
  | some i =>
    let remaining := haystack.data.drop (i + left.data.length)
    match findSub remaining right.data with
    | none => ""
    | some j => String.mk (remaining.take j)

example : between "xx<a>yy" "<" ">" = "a" := by decide

example : between "xxyy" "<" ">" = "" := by decide

/-- Model of `extract_manipulations` (src/utils.rs lines 869-897).  `slice` from
the missing src/structs.rs `StringUtils` is modelled as a character-index
slice (the bodies handled are effectively ASCII, where byte and
character indices agree).  `Except.error ()` models a panic of
`cut_after_js` reaching out of bounds. -/
def extract_manipulations (body caller : String) : Except Unit String :=
  let functionName := between caller "a=a.split(\x22\x22);" "."
  if functionName = "" then .ok ""
  else
    let functionStart := "var " ++ functionName ++ "=\x7b"
    match findSub body.data functionStart.data with
    | none => .ok ""
    | some ndx =>
      let subBody := body.data.drop (ndx + functionStart.data.length - 1)
      match cutAfterJs subBody with
      | .aborted => .error ()
      | .noMatch => .ok ("var " ++ functionName ++ "=" ++ "null")
      | .cut p => .ok ("var " ++ functionName ++ "=" ++ String.mk p)

/-- Model of `extract_decipher` (src/utils.rs lines 899-935): locate the decipher
function's name between its two anchors, cut its body after
`name=function(a)`, prepend the manipulations object, strip newlines,
and push the pair; any anchor or definition miss contributes nothing. -/
def extract_decipher (body : String) : Except Unit (List (String × String)) :=
  let functionName := between body "a.set(\x22alr\x22,\x22yes\x22);c&&(c="
    "(decodeURIC"
  if functionName = "" then .ok []
  else
    let functionStart := functionName ++ "=function(a)"
    match findSub body.data functionStart.data with
    | none => .ok []
    | some ndx =>
      let subBody := body.data.drop (ndx + functionStart.data.length)
      match cutAfterJs subBody with
      | .aborted => .error ()
      | res =>
        let cutBody := match res with
          | .cut p => String.mk p
          | _ => "\x7b\x7d"
        let functionBody := "var " ++ functionStart ++ cutBody
        match extract_manipulations body functionBody with
        | .error e => .error e
        | .ok manip =>
          let fb2 := manip ++ ";" ++ functionBody ++ ";"
          .ok [(functionName,
            String.mk (fb2.data.filter fun c => c ≠ Char.ofNat 10))]

/-- Model of `extract_ncode` (src/utils.rs lines 937-979): locate the n-transform
function's name (re-resolving an array-subscript reference through the
secondary `var name=[` anchor), cut its body after `name=function(a)`,
strip newlines, push the pair; any miss contributes nothing. -/
def extract_ncode (body : String) : Except Unit (List (String × String)) :=
  let functionName := between body "&&(b=a.get(\x22n\x22))&&(b=" "(b)"
  let leftName := "var " ++
    String.mk ((functionName.data.splitOn '[').headD []) ++ "=["
  let functionName2 :=
    if functionName.data.contains '[' then between body leftName "]"
    else functionName
  if functionName2 = "" then .ok []
  else
    let functionStart := functionName2 ++ "=function(a)"
    match findSub body.data functionStart.data with
    | none => .ok []
    | some ndx =>
      let subBody := body.data.drop (ndx + functionStart.data.length)
      match cutAfterJs subBody with
      | .aborted => .error ()
      | res =>
        let cutBody := match res with
          | .cut p => String.mk p
          | _ => "\x7b\x7d"
        let fb := "var " ++ functionStart ++ cutBody ++ ";"
        .ok [(functionName2,
          String.mk (fb.data.filter fun c => c ≠ Char.ofNat 10))]

/-- Model of `extract_functions` (src/utils.rs lines 866-989): run the decipher
extraction, then the n-transform extraction, pushing whatever each
finds into one list in that order. -/
def extract_functions (body : String) : Except Unit (List (String × String)) :=
  match extract_decipher body with
  | .error e => .error e
  | .ok d =>
    match extract_ncode body with
    | .error e => .error e
    | .ok n => .ok (d ++ n)

theorem extract_decipher_len (body : String) (d : List (String × String))
    (hd : extract_decipher body = .ok d) : d.length ≤ 1 := by
  simp only [extract_decipher] at hd
  repeat' split at hd
  all_goals
    first
      | exact Except.noConfusion hd
      | (injection hd with h2; rw [← h2]; simp)

theorem extract_ncode_len (body : String) (n : List (String × String))
    (hn : extract_ncode body = .ok n) : n.length ≤ 1 := by
  simp only [extract_ncode] at hn
  repeat' split at hn
  all_goals
    first
      | exact Except.noConfusion hn
      | (injection hn with h2; rw [← h2]; simp)

/-- C5 (amended): the extractor runs the two role extractions
independently — a role whose anchors or definition are missing simply
contributes nothing — and returns the decipher pair (when found)
followed by the n-transform pair (when found), each role yielding at
most one pair.  Index 0 is therefore the decipher function only when the
decipher role was found: when only the n-transform is found, its pair
occupies index 0 (and the consumer at src/parser/mod.rs lines 94-95 then
treats it as the decipher function).  "Never errors out" holds only when
the balanced-source cuts stay in bounds; an unterminated fragment panics
(`Except.error`). -/
theorem C5_extract_functions_roles (body : String)
    (d n : List (String × String))
    (hd : extract_decipher body = .ok d) (hn : extract_ncode body = .ok n) :
    extract_functions body = .ok (d ++ n) ∧ d.length ≤ 1 ∧ n.length ≤ 1 := by
  refine ⟨?_, extract_decipher_len body d hd, extract_ncode_len body n hn⟩
  rw [extract_functions, hd, hn]

/-- The fixture player-script body holding only the n-transform role's
anchors and definition; the decipher anchors are absent. -/
def bodyN : String :=
  "&&(b=a.get(\x22n\x22))&&(b=NFUNC(b)NFUNC=function(a)\x7breturn a\x7d"

/-- C5 witness: the amended theorem applied at the concrete body whose
decipher role is missing: the result is the n-transform pair alone. -/
theorem C5_witness :
    extract_functions bodyN =
      .ok ([] ++ [("NFUNC", "var NFUNC=function(a)\x7breturn a\x7d;")]) ∧
      ([] : List (String × String)).length ≤ 1 ∧
      [("NFUNC", "var NFUNC=function(a)\x7breturn a\x7d;")].length ≤ 1 :=
  C5_extract_functions_roles bodyN []
    [("NFUNC", "var NFUNC=function(a)\x7breturn a\x7d;")] (by rfl) (by rfl)

/-- C5 counterexample: on `bodyN` the decipher extraction finds nothing
and the n-transform extraction finds its pair, so the returned list has
the *n-transform* pair at index 0 — the claim's "index 0 is the decipher
function and index 1 is the n-transform function" fails whenever the
decipher role is missing (and the consumer then feeds the n-transform
source to the Cipher Transformer). -/
theorem C5_counterexample :
    extract_decipher bodyN = .ok [] ∧
      extract_ncode bodyN =
        .ok [("NFUNC", "var NFUNC=function(a)\x7breturn a\x7d;")] ∧
      extract_functions bodyN =
        .ok [("NFUNC", "var NFUNC=function(a)\x7breturn a\x7d;")] := by
  refine ⟨by rfl, by rfl, by rfl⟩
